import Mathlib

/-!
Shallow embedding of `ncdownloader.py`, a Nextcloud/ownCloud public-share
downloader.  Pure Python functions become Lean functions; filesystem state
is an explicit record of probe functions; network responses are explicit
values; exceptions become `Except` results.  Python strings are sequences
of code points, which we model with `String`/`List Char`; Python `dict`
records with possibly-absent keys become structures with `Option` fields.
-/

namespace NCDown

/-- Mirror of `LEN_PATH_PREF = len('/public.php/webdav')` from the source. -/
def LEN_PATH_PREF : Nat := "/public.php/webdav".length

/-- Mirror of `CODE_SUCCESS = 207` from the source. -/
def CODE_SUCCESS : Nat := 207

/-- Python slicing `s[n:]` on code points (Lean chars). -/
def strDrop (s : String) (n : Nat) : String := ⟨s.data.drop n⟩

/-- Python `s.endswith('/')`. -/
def endsWithSlash (s : String) : Bool := s.data.getLast? == some '/'

/-- Python `s.startswith('/')`. -/
def startsWithSlash (s : String) : Bool := s.data.head? == some '/'

/-- Decimal digit test, as in Python `int` parsing. -/
def isDigitCh (c : Char) : Bool := '0' ≤ c && c ≤ '9'

/-- Value of a decimal digit string (most significant first). -/
def digitsToNat (l : List Char) : Nat := l.foldl (fun a c => a * 10 + (c.toNat - 48)) 0

/-- Nonempty all-digit character list. -/
def isDigits (l : List Char) : Bool := !l.isEmpty && l.all isDigitCh

/-- Models Python `int(s)` on an optional-sign decimal string: `some` of its
value when `s` is `[+-]?[0-9]+`, `none` (a `ValueError`) otherwise. -/
def pyInt? (s : String) : Option Int :=
  match s.data with
  | '-' :: rest => if isDigits rest then some (-(digitsToNat rest : Int)) else none
  | '+' :: rest => if isDigits rest then some ((digitsToNat rest : Int)) else none
  | l => if isDigits l then some ((digitsToNat l : Int)) else none

/-- Hexadecimal digit value, as used by percent-decoding. -/
def hexVal? (c : Char) : Option Nat :=
  if '0' ≤ c && c ≤ '9' then some (c.toNat - 48)
  else if 'a' ≤ c && c ≤ 'f' then some (c.toNat - 87)
  else if 'A' ≤ c && c ≤ 'F' then some (c.toNat - 55)
  else none

/-- Fuel-driven worker for percent-decoding: each step consumes at least one
character, so fuel equal to the input length always suffices (the `0` case
with input left over is unreachable from `unquoteChars`). -/
def unquoteFuel : Nat → List Char → List Char
  | _, [] => []
  | 0, l => l
  | fuel + 1, '%' :: a :: b :: rest2 =>
    match hexVal? a, hexVal? b with
    | some x, some y => Char.ofNat (16 * x + y) :: unquoteFuel fuel rest2
    | _, _ => '%' :: unquoteFuel fuel (a :: b :: rest2)
  | fuel + 1, c :: rest => c :: unquoteFuel fuel rest

/-- Models `urllib.parse.unquote` on character lists for ASCII escapes: each
valid `%XX` escape becomes the character of code `XX`; invalid escapes are
left verbatim.  (Multi-byte UTF-8 escape sequences are outside the model.) -/
def unquoteChars (l : List Char) : List Char := unquoteFuel l.length l

/-- Models `urllib.parse.unquote` on strings. -/
def unquote (s : String) : String := ⟨unquoteChars s.data⟩

/-- Models POSIX `os.path.join(a, b)`: an absolute `b` replaces `a`;
otherwise the parts are concatenated with a separator unless `a` is empty
or already ends in one. -/
def ospath_join (a b : String) : String :=
  if startsWithSlash b then b
  else if a = "" || endsWithSlash a then a ++ b
  else a ++ "/" ++ b

/-- One remote item, mirroring the per-entry `dict` built by
`parse_propfind_response` and enriched later by `get_file_lists`
(key `'dest'`, always assigned before use; the default `""` stands for
"not yet assigned") and `check_files` (key `'filesize'`). -/
structure Item where
  path : String
  lastmodified : Option String := none
  contentlength : Option Int := none
  contenttype : Option String := none
  dest : String := ""
  filesize : Option Int := none
deriving Repr, DecidableEq

/-- One `d:response` element of a multi-status body, at the level the source
inspects it: the text content of `d:href` and of the three requested
property elements (`none` models an empty element, i.e. `firstChild` being
`None`, or a missing href). -/
structure PropEntry where
  href : Option String := none
  lastmodified : Option String := none
  contentlength : Option String := none
  contenttype : Option String := none
deriving Repr, DecidableEq

/-- Error kinds raised by the embedded code: malformed listing entries
(`minidom`/`int` failures), unexpected HTTP status from a listing
(`RuntimeError` in `list_dir`), a missing `dict` key (`KeyError` in
`check_files`), and a byte-count mismatch after a download
(`RuntimeError` in `download_file`). -/
inductive NCError where
  | parseError
  | protocolError (url : String) (status : Nat) (body : List PropEntry)
  | keyError (key : String)
  | transferError (url : String)
deriving Repr, DecidableEq

/-- Loop body of `parse_propfind_response`: one `d:response` element becomes
one item dict.  A missing href is a parse failure (`IndexError` on
`getElementsByTagName(...)[0]` in the source); a present `contentlength`
text that `int()` cannot parse is a parse failure (`ValueError`). -/
def parse_entry (e : PropEntry) : Except NCError Item :=
  match e.href with
  | none => .error .parseError
  | some h =>
    let base : Item :=
      { path := strDrop h LEN_PATH_PREF
      , lastmodified := e.lastmodified
      , contenttype := e.contenttype }
    match e.contentlength with
    | none => .ok base
    | some s =>
      match pyInt? s with
      | none => .error .parseError
      | some n => .ok { base with contentlength := some n }

/-- Mirror of `parse_propfind_response`: entries are processed in document
order, the first failure aborting the whole parse. -/
def parse_propfind_response : List PropEntry → Except NCError (List Item)
  | [] => .ok []
  | e :: rest =>
    match parse_entry e with
    | .error err => .error err
    | .ok it =>
      match parse_propfind_response rest with
      | .error err => .error err
      | .ok its => .ok (it :: its)

/-- Name of the WebDAV URL built by both `list_dir` and `download_file`
(`f'{host}/public.php/webdav/{path}'`). -/
def webdavUrl (host p : String) : String := host ++ "/public.php/webdav/" ++ p

/-- A PROPFIND response as `list_dir` consumes it: the HTTP status code and
the body, already at the DOM level of `PropEntry` records. -/
structure PResponse where
  status_code : Nat
  body : List PropEntry
deriving Repr, DecidableEq

/-- Mirror of `list_dir`: raise on any status other than `CODE_SUCCESS`,
otherwise parse the body and drop the first entry (the listed directory
itself). -/
def list_dir (resp : PResponse) (host path : String) : Except NCError (List Item) :=
  let url := webdavUrl host path
  if resp.status_code ≠ CODE_SUCCESS then
    .error (.protocolError url resp.status_code resp.body)
  else
    match parse_propfind_response resp.body with
    | .error err => .error err
    | .ok items => .ok (items.drop 1)

/-- The remote directory hierarchy as the server exposes it to the walker,
one node per entry: `node item children rest` is an entry (`item`, as
returned by `list_dir` after the self-entry has been skipped) whose own
listing contains `children`, followed by its sibling entries `rest`.  Leaf
files carry `children = nil`.  The tree shape stands for the protocol's
server-enforced hierarchy; `list_dir` on a directory entry's path returns
exactly its `children` items. -/
inductive Forest where
  | nil : Forest
  | node (item : Item) (children : Forest) (rest : Forest) : Forest
deriving Repr, DecidableEq

/-- Whether a forest has no entries. -/
def Forest.isNil : Forest → Bool
  | .nil => true
  | .node _ _ _ => false

/-- Mirror of `walk_dir`: for each entry of a directory's listing, an entry
whose path ends in `/` is recursed into and its files appended, any other
entry is appended itself. -/
def walk_dir : Forest → List Item
  | .nil => []
  | .node it cs rest =>
    (if endsWithSlash it.path then walk_dir cs else [it]) ++ walk_dir rest

/-- All entries of a forest, directories included, in traversal order. -/
def forest_items : Forest → List Item
  | .nil => []
  | .node it cs rest => it :: (forest_items cs ++ forest_items rest)

/-- Well-formed remote hierarchy, per the data-model invariant: directory
entries (and only they) end in the separator, so an entry that does not end
in `/` is a leaf with no children. -/
def forest_wf : Forest → Bool
  | .nil => true
  | .node it cs rest =>
    (endsWithSlash it.path || cs.isNil) && forest_wf cs && forest_wf rest

/-- Code-point lexicographic `≤` on strings, the order Python's `sorted`
uses for `str` keys. -/
def strLe : List Char → List Char → Bool
  | [], _ => true
  | _ :: _, [] => false
  | c :: a, d :: b => c < d || (c == d && strLe a b)

/-- Stable insertion into a path-sorted list: the inserted element goes
before the first strictly greater path and after equal ones coming from
earlier positions. -/
def insertByPath (x : Item) : List Item → List Item
  | [] => [x]
  | y :: ys =>
    if strLe x.path.data y.path.data then x :: y :: ys else y :: insertByPath x ys

/-- Mirror of `sorted(..., key=lambda x: x['path'])`: a stable sort by path. -/
def sortByPath : List Item → List Item
  | [] => []
  | x :: xs => insertByPath x (sortByPath xs)

/-- Compiled form of one `fnmatch` pattern element. -/
inductive GTok where
  | lit (c : Char)
  | anyOne
  | anySeq
  | cls (neg : Bool) (body : List Char)
deriving Repr, DecidableEq

/-- Splits a character list at the first `]`, returning the part before it
and the number of characters consumed including the `]`. -/
def splitClose : List Char → Option (List Char × Nat)
  | [] => none
  | ']' :: _ => some ([], 1)
  | c :: t => (splitClose t).map fun p => (c :: p.1, p.2 + 1)

/-- Scans a bracket-class body right after `[`, following `fnmatch.translate`:
a leading `!` negates, a `]` right after that is literal, and the class runs
to the next `]`; `none` when no closing `]` exists (the `[` is then literal).
Returns the negation flag, the class body, and the characters consumed. -/
def scanCls (ps : List Char) : Option (Bool × List Char × Nat) :=
  match ps with
  | '!' :: t =>
    match t with
    | ']' :: t2 => (splitClose t2).map fun p => (true, ']' :: p.1, 2 + p.2)
    | _ => (splitClose t).map fun p => (true, p.1, 1 + p.2)
  | ']' :: t2 => (splitClose t2).map fun p => (false, ']' :: p.1, 1 + p.2)
  | _ => (splitClose ps).map fun p => (false, p.1, p.2)

/-- Compiles a glob pattern to tokens: `*`, `?`, bracket classes, and
literal characters (an unclosed `[` is literal, as in `fnmatch`). -/
def compilePat : List Char → List GTok
  | [] => []
  | '*' :: ps => .anySeq :: compilePat ps
  | '?' :: ps => .anyOne :: compilePat ps
  | '[' :: ps =>
    match scanCls ps with
    | some (neg, body, k) => .cls neg body :: compilePat (ps.drop k)
    | none => .lit '[' :: compilePat ps
  | c :: ps => .lit c :: compilePat ps
termination_by l => l.length
decreasing_by all_goals simp <;> omega

/-- Membership of a character in a bracket-class body, with `a-b` ranges on
code points as in the regex `fnmatch.translate` produces. -/
def clsHas (c : Char) : List Char → Bool
  | a :: '-' :: b :: rest => (a ≤ c && c ≤ b) || clsHas c rest
  | a :: rest => (a == c) || clsHas c rest
  | [] => false

/-- Matches compiled glob tokens against a character list; `anySeq` (`*`)
matches any sequence, including separators, as `fnmatch` does. -/
def tokMatch : List GTok → List Char → Bool
  | [], s => s.isEmpty
  | .anySeq :: ps, s =>
    tokMatch ps s ||
      (match s with
       | [] => false
       | _ :: s2 => tokMatch (.anySeq :: ps) s2)
  | .anyOne :: ps, s =>
    (match s with
     | [] => false
     | _ :: s2 => tokMatch ps s2)
  | .cls neg body :: ps, s =>
    (match s with
     | [] => false
     | c :: s2 => (clsHas c body != neg) && tokMatch ps s2)
  | .lit pc :: ps, s =>
    (match s with
     | [] => false
     | c :: s2 => (pc == c) && tokMatch ps s2)
termination_by p s => p.length + s.length
decreasing_by all_goals simp <;> omega

/-- Models `fnmatch.fnmatch(name, pat)` on POSIX (where `normcase` is the
identity): shell-glob matching of the whole name. -/
def fnmatch (name pat : String) : Bool := tokMatch (compilePat pat.data) name.data

/-- Mirror of `glob_filter`: true when the path matches at least one of the
patterns. -/
def glob_filter (path : String) (globs : List String) : Bool :=
  globs.any fun g => fnmatch path g

/-- A snapshot of the local filesystem as the source probes it:
`os.path.isfile`, `os.path.getsize`, `os.path.isdir` and `os.listdir`. -/
structure FS where
  isfile : String → Bool
  getsize : String → Nat
  isdir : String → Bool
  listdir : String → List String

/-- Mirror of `check_dir_not_empty`: the path is a directory and its listing
is non-empty (Python truthiness of the listing). -/
def check_dir_not_empty (fs : FS) (p : String) : Bool :=
  fs.isdir p && !(fs.listdir p).isEmpty

/-- The update `check_files` performs on a probed record:
`x['filesize'] = os.path.getsize(x['dest'])`. -/
def probeUpd (fs : FS) (x : Item) : Item :=
  { x with filesize := some ((fs.getsize x.dest : Int)) }

/-- Mirror of `check_files`: each record whose destination is a regular file
has its local size recorded and is classified by comparing that size with
`x['contentlength']` (a `KeyError` when the key is absent); records with no
local file are new.  The first failure aborts the whole pass, as the Python
exception would. -/
def check_files (fs : FS) : List Item → Except NCError (List Item × List Item × List Item)
  | [] => .ok ([], [], [])
  | x :: rest =>
    if fs.isfile x.dest then
      match x.contentlength with
      | none => .error (.keyError "contentlength")
      | some cl =>
        match check_files fs rest with
        | .error e => .error e
        | .ok (n, m, ex) =>
          if (fs.getsize x.dest : Int) = cl then .ok (n, m, probeUpd fs x :: ex)
          else .ok (n, probeUpd fs x :: m, ex)
    else
      match check_files fs rest with
      | .error e => .error e
      | .ok (n, m, ex) => .ok (x :: n, m, ex)

/-- The reconciler's arguments: the output root (`args.output`) and the glob
patterns (`args.glob`, the empty list modelling Python's falsy `None`). -/
structure Args where
  output : String
  glob : List String
deriving Repr, DecidableEq

/-- Destination-path computation of `get_file_lists`:
`urllib.parse.unquote(os.path.join(args.output, x['path'][1:]))`. -/
def destOf (output path : String) : String :=
  unquote (ospath_join output (strDrop path 1))

/-- The walked file list, path-sorted, with each record's `dest` assigned —
the state of `files` in `get_file_lists` just before glob filtering. -/
def dest_files (tree : Forest) (args : Args) : List Item :=
  (sortByPath (walk_dir tree)).map fun x => { x with dest := destOf args.output x.path }

/-- The file list `get_file_lists` hands to classification: glob filtering
is applied only when at least one pattern was supplied (`if args.glob:`). -/
def reconInput (tree : Forest) (args : Args) : List Item :=
  if args.glob ≠ [] then
    (dest_files tree args).filter fun x => glob_filter x.dest args.glob
  else dest_files tree args

/-- Mirror of `get_file_lists` after the walk: when the output directory
exists and is non-empty the records are classified against the filesystem;
otherwise everything is new and no per-file probe happens. -/
def get_file_lists (fs : FS) (tree : Forest) (args : Args) :
    Except NCError (List Item × List Item × List Item) :=
  if check_dir_not_empty fs args.output then check_files fs (reconInput tree args)
  else .ok (reconInput tree args, [], [])

/-- A GET response as `download_file` consumes it: the advertised
`content-length` header (absent modelling `headers.get` returning the
default, so `total_size = 0`) and the streamed body chunks, each a list of
bytes. -/
structure DLResponse where
  contentLength : Option Nat
  chunks : List (List Nat)

/-- Total number of bytes the download loop writes: the sum of chunk
lengths, which is also the final `progress_bar.n`. -/
def bytesWritten (resp : DLResponse) : Nat := (resp.chunks.map List.length).sum

/-- Effect of writing a file of `n` bytes at `p`: the snapshot now reports a
regular file of that size there. -/
def FS.writeFile (fs : FS) (p : String) (n : Nat) : FS :=
  { fs with
    isfile := fun q => if q = p then true else fs.isfile q
  , getsize := fun q => if q = p then n else fs.getsize q }

/-- Mirror of `download_file`: the body is streamed to `path_out` in full
(the write happens whether or not the final check passes), then a non-zero
advertised size differing from the byte count raises a `RuntimeError`
naming the URL.  Returns the filesystem after the write together with the
outcome. -/
def download_file (fs : FS) (resp : DLResponse) (host path_share path_out : String) :
    FS × Except NCError Nat :=
  let url := webdavUrl host path_share
  let total_size := resp.contentLength.getD 0
  let fs2 := fs.writeFile path_out (bytesWritten resp)
  ( fs2
  , if total_size ≠ 0 ∧ bytesWritten resp ≠ total_size then .error (.transferError url)
    else .ok (bytesWritten resp) )

/-- Spec-side destination path, following the specification's words
literally: "percent-decode the remote path, strip the leading separator,
join under the output root" — to be compared with `destOf`, which the code
actually computes. -/
def destOf_specwords (output rpath : String) : String :=
  let decoded := unquote rpath
  ospath_join output (if startsWithSlash decoded then strDrop decoded 1 else decoded)

/-- Sample filesystem snapshot: the output root `out` is a non-empty
directory holding one 3-byte regular file `out/a.txt`. -/
def fsSample : FS :=
  { isfile := fun p => p == "out/a.txt"
  , getsize := fun _ => 3
  , isdir := fun p => p == "out"
  , listdir := fun p => if p == "out" then ["a.txt"] else [] }

/-- Sample filesystem snapshot on which every path probes as a regular
file. -/
def fsAllFiles : FS :=
  { isfile := fun _ => true
  , getsize := fun _ => 0
  , isdir := fun _ => true
  , listdir := fun _ => [] }

/-- Sample remote tree: a subdirectory `/sub/` holding `/sub/b.txt` of
7 bytes, next to a root-level file `/a.txt` of 3 bytes. -/
def treeSample : Forest :=
  .node { path := "/sub/" }
    (.node { path := "/sub/b.txt", contentlength := some 7
           , lastmodified := some "LM", contenttype := some "text/plain" } .nil .nil)
    (.node { path := "/a.txt", contentlength := some 3 } .nil .nil)

/-- Sample reconciler arguments without glob patterns. -/
def argsSample : Args := { output := "out", glob := [] }

/-- Sample reconciler arguments with one glob pattern. -/
def argsGlob : Args := { output := "out", glob := ["*.txt"] }

/-- Sample listing body: the self entry, a full file entry, and an entry
whose optional properties are all absent. -/
def docSample : List PropEntry :=
  [ { href := some "/public.php/webdav/" }
  , { href := some "/public.php/webdav/a.txt", lastmodified := some "LM"
    , contentlength := some "10", contenttype := some "text/plain" }
  , { href := some "/public.php/webdav/sub/" } ]

/-- The parse of `docSample`. -/
def itemsSample : List Item :=
  [ { path := "/" }
  , { path := "/a.txt", lastmodified := some "LM", contentlength := some 10
    , contenttype := some "text/plain" }
  , { path := "/sub/" } ]

theorem walk_dir_no_slash (f : Forest) :
    ∀ it ∈ walk_dir f, endsWithSlash it.path = false := by
  induction f with
  | nil => intro it h; simp [walk_dir] at h
  | node x cs rest ihc ihr =>
    intro it h
    simp only [walk_dir, List.mem_append] at h
    rcases h with h | h
    · by_cases hs : endsWithSlash x.path
      · rw [if_pos hs] at h; exact ihc it h
      · rw [if_neg hs] at h
        simp at h
        subst h
        simpa using hs
    · exact ihr it h

theorem walk_dir_filter (f : Forest) (hwf : forest_wf f = true) :
    walk_dir f = (forest_items f).filter fun it => !endsWithSlash it.path := by
  induction f with
  | nil => rfl
  | node x cs rest ihc ihr =>
    simp only [forest_wf, Bool.and_eq_true, Bool.or_eq_true] at hwf
    obtain ⟨⟨h1, h2⟩, h3⟩ := hwf
    by_cases hs : endsWithSlash x.path
    · simp [walk_dir, forest_items, hs, ihc h2, ihr h3, List.filter_append]
    · have hnil : cs = .nil := by
        rcases h1 with h1 | h1
        · rw [h1] at hs; simp at hs
        · cases cs with
          | nil => rfl
          | node y a b => simp [Forest.isNil] at h1
      subst hnil
      simp [walk_dir, forest_items, hs, ihr h3]

theorem check_files_eq (fs : FS) (files : List Item)
    (h : ∀ x ∈ files, x.contentlength ≠ none) :
    check_files fs files = .ok
      ( files.filter (fun x => !fs.isfile x.dest)
      , (files.filter (fun x => fs.isfile x.dest &&
          !decide (some ((fs.getsize x.dest : Int)) = x.contentlength))).map (probeUpd fs)
      , (files.filter (fun x => fs.isfile x.dest &&
          decide (some ((fs.getsize x.dest : Int)) = x.contentlength))).map (probeUpd fs) ) := by
  induction files with
  | nil => rfl
  | cons x rest ih =>
    have hx : x.contentlength ≠ none := h x (by simp)
    have ihh := ih fun y hy => h y (by simp [hy])
    cases hcl : x.contentlength with
    | none => exact absurd hcl hx
    | some cl =>
      by_cases hf : fs.isfile x.dest
      · by_cases heq : (fs.getsize x.dest : Int) = cl
        · simp [check_files, hf, hcl, ihh, heq]
        · simp [check_files, hf, hcl, ihh, heq]
      · simp [check_files, hf, hcl, ihh]

theorem filter_partition_length (p q : Item → Bool) (l : List Item) :
    (l.filter fun x => !p x).length
      + (l.filter fun x => p x && !q x).length
      + (l.filter fun x => p x && q x).length = l.length := by
  induction l with
  | nil => rfl
  | cons x xs ih =>
    by_cases hp : p x <;> by_cases hq : q x <;> simp [hp, hq] <;> omega

theorem check_files_mem (fs : FS) (files : List Item) : ∀ n m ex,
    check_files fs files = .ok (n, m, ex) →
    (∀ x ∈ n, x ∈ files) ∧
    (∀ x ∈ m, ∃ y ∈ files, x = probeUpd fs y) ∧
    (∀ x ∈ ex, ∃ y ∈ files, x = probeUpd fs y) := by
  induction files with
  | nil =>
    intro n m ex h
    simp only [check_files] at h
    obtain ⟨h1, h2, h3⟩ := by simpa using h
    subst h1; subst h2; subst h3
    simp
  | cons x rest ih =>
    intro n m ex h
    simp only [check_files] at h
    by_cases hf : fs.isfile x.dest
    · rw [if_pos hf] at h
      cases hcl : x.contentlength with
      | none => rw [hcl] at h; simp at h
      | some cl =>
        rw [hcl] at h
        cases hrest : check_files fs rest with
        | error e => rw [hrest] at h; simp at h
        | ok t =>
          obtain ⟨n2, m2, ex2⟩ := t
          rw [hrest] at h
          dsimp only at h
          have ihh := ih n2 m2 ex2 hrest
          by_cases heq : (fs.getsize x.dest : Int) = cl
          · rw [if_pos heq] at h
            obtain ⟨e1, e2, e3⟩ := by simpa using h
            subst e1; subst e2; subst e3
            refine ⟨fun z hz => .tail _ (ihh.1 z hz), fun z hz => ?_, fun z hz => ?_⟩
            · obtain ⟨y, hy, hzy⟩ := ihh.2.1 z hz
              exact ⟨y, .tail _ hy, hzy⟩
            · rcases List.mem_cons.mp hz with hz | hz
              · exact ⟨x, .head _, hz⟩
              · obtain ⟨y, hy, hzy⟩ := ihh.2.2 z hz
                exact ⟨y, .tail _ hy, hzy⟩
          · rw [if_neg heq] at h
            obtain ⟨e1, e2, e3⟩ := by simpa using h
            subst e1; subst e2; subst e3
            refine ⟨fun z hz => .tail _ (ihh.1 z hz), fun z hz => ?_, fun z hz => ?_⟩
            · rcases List.mem_cons.mp hz with hz | hz
              · exact ⟨x, .head _, hz⟩
              · obtain ⟨y, hy, hzy⟩ := ihh.2.1 z hz
                exact ⟨y, .tail _ hy, hzy⟩
            · obtain ⟨y, hy, hzy⟩ := ihh.2.2 z hz
              exact ⟨y, .tail _ hy, hzy⟩
    · rw [if_neg hf] at h
      cases hrest : check_files fs rest with
      | error e => rw [hrest] at h; simp at h
      | ok t =>
        obtain ⟨n2, m2, ex2⟩ := t
        rw [hrest] at h
        have ihh := ih n2 m2 ex2 hrest
        obtain ⟨e1, e2, e3⟩ := by simpa using h
        subst e1; subst e2; subst e3
        refine ⟨fun z hz => ?_, fun z hz => ?_, fun z hz => ?_⟩
        · rcases List.mem_cons.mp hz with hz | hz
          · simp [hz]
          · exact .tail _ (ihh.1 z hz)
        · obtain ⟨y, hy, hzy⟩ := ihh.2.1 z hz
          exact ⟨y, .tail _ hy, hzy⟩
        · obtain ⟨y, hy, hzy⟩ := ihh.2.2 z hz
          exact ⟨y, .tail _ hy, hzy⟩

theorem pyInt_digits (s : String) (hd : isDigits s.data = true) :
    pyInt? s = some ((digitsToNat s.data : Int)) := by
  unfold pyInt?
  split
  · next rest heq =>
    rw [heq] at hd
    simp [isDigits, isDigitCh] at hd
  · next rest heq =>
    rw [heq] at hd
    simp [isDigits, isDigitCh] at hd
  · next _ _ =>
    simp [hd]

theorem parse_entry_fields (e : PropEntry) (it : Item) (h : parse_entry e = .ok it) :
    ∃ hr, e.href = some hr ∧
      it.path = strDrop hr LEN_PATH_PREF ∧
      it.lastmodified = e.lastmodified ∧
      it.contenttype = e.contenttype ∧
      (e.contentlength = none → it.contentlength = none) ∧
      (∀ s, e.contentlength = some s →
        ∃ n, pyInt? s = some n ∧ it.contentlength = some n) := by
  cases hh : e.href with
  | none => rw [parse_entry, hh] at h; simp at h
  | some hr =>
    refine ⟨hr, rfl, ?_⟩
    cases hc : e.contentlength with
    | none =>
      rw [parse_entry, hh, hc] at h
      simp only [Except.ok.injEq] at h
      subst h
      simp [hc]
    | some s =>
      rw [parse_entry, hh, hc] at h
      dsimp only at h
      cases hp : pyInt? s with
      | none => rw [hp] at h; simp at h
      | some n =>
        rw [hp] at h
        simp only [Except.ok.injEq] at h
        subst h
        refine ⟨rfl, rfl, rfl, by simp, ?_⟩
        intro s2 hs2
        simp only [Option.some.injEq] at hs2
        subst hs2
        exact ⟨n, hp, rfl⟩

theorem parse_entry_no_protocol (e : PropEntry) (u : String) (st : Nat)
    (b : List PropEntry) : parse_entry e ≠ .error (.protocolError u st b) := by
  cases hh : e.href with
  | none => simp [parse_entry, hh]
  | some hr =>
    cases hc : e.contentlength with
    | none => simp [parse_entry, hh, hc]
    | some s =>
      cases hp : pyInt? s with
      | none => simp [parse_entry, hh, hc, hp]
      | some n => simp [parse_entry, hh, hc, hp]

theorem parse_no_protocol (doc : List PropEntry) (u : String) (st : Nat)
    (b : List PropEntry) :
    parse_propfind_response doc ≠ .error (.protocolError u st b) := by
  induction doc with
  | nil => simp [parse_propfind_response]
  | cons e rest ih =>
    simp only [parse_propfind_response]
    cases hpe : parse_entry e with
    | error err =>
      dsimp only
      intro hc
      simp only [Except.error.injEq] at hc
      subst hc
      exact parse_entry_no_protocol e u st b hpe
    | ok it =>
      cases hrest : parse_propfind_response rest with
      | error err =>
        intro hc
        simp only [Except.error.injEq] at hc
        subst hc
        exact ih hrest
      | ok its => simp

theorem parse_ok_pointwise (doc : List PropEntry) : ∀ items,
    parse_propfind_response doc = .ok items →
    items.length = doc.length ∧
    ∀ i (h1 : i < doc.length) (h2 : i < items.length),
      parse_entry (doc.get ⟨i, h1⟩) = .ok (items.get ⟨i, h2⟩) := by
  induction doc with
  | nil =>
    intro items h
    simp only [parse_propfind_response, Except.ok.injEq] at h
    subst h
    simp
  | cons e rest ih =>
    intro items h
    simp only [parse_propfind_response] at h
    cases hpe : parse_entry e with
    | error err => rw [hpe] at h; simp at h
    | ok it =>
      rw [hpe] at h
      cases hrest : parse_propfind_response rest with
      | error err => rw [hrest] at h; simp at h
      | ok its =>
        rw [hrest] at h
        simp only [Except.ok.injEq] at h
        subst h
        obtain ⟨ihlen, ihpt⟩ := ih its hrest
        refine ⟨by simp [ihlen], ?_⟩
        intro i h1 h2
        cases i with
        | zero => simpa using hpe
        | succ j =>
          have hj1 : j < rest.length := by simpa using h1
          have hj2 : j < its.length := by simpa using h2
          simpa using ihpt j hj1 hj2

/-- C1: For every remote file list, output root and filesystem snapshot,
reconciliation classifies files as follows: when the output directory does
not exist or has no entries, every file is New and the per-file probe
functions are never consulted; otherwise each file is classified by probing
its destination — no regular file means New, a regular file of equal byte
size means Existing, a regular file of differing byte size means Mismatched
with the local size recorded — and the three classes partition the filtered
list (their lengths sum to its length). -/
theorem C1_reconcile (fs : FS) (tree : Forest) (args : Args)
    (hcl : ∀ x ∈ reconInput tree args, x.contentlength ≠ none) :
    (check_dir_not_empty fs args.output = false →
      ∀ isf gsz, get_file_lists { fs with isfile := isf, getsize := gsz } tree args
        = .ok (reconInput tree args, [], [])) ∧
    (check_dir_not_empty fs args.output = true →
      get_file_lists fs tree args = .ok
        ( (reconInput tree args).filter (fun x => !fs.isfile x.dest)
        , ((reconInput tree args).filter (fun x => fs.isfile x.dest &&
            !decide (some ((fs.getsize x.dest : Int)) = x.contentlength))).map (probeUpd fs)
        , ((reconInput tree args).filter (fun x => fs.isfile x.dest &&
            decide (some ((fs.getsize x.dest : Int)) = x.contentlength))).map (probeUpd fs) )) ∧
    (∀ n m ex, get_file_lists fs tree args = .ok (n, m, ex) →
      n.length + m.length + ex.length = (reconInput tree args).length) := by
  refine ⟨?_, ?_, ?_⟩
  · intro hne isf gsz
    have he : check_dir_not_empty { fs with isfile := isf, getsize := gsz } args.output
        = false := hne
    simp [get_file_lists, he]
  · intro hde
    simp only [get_file_lists, hde, if_true]
    exact check_files_eq fs (reconInput tree args) hcl
  · intro n m ex hok
    by_cases hde : check_dir_not_empty fs args.output
    · rw [get_file_lists, if_pos hde, check_files_eq fs _ hcl] at hok
      simp only [Except.ok.injEq, Prod.mk.injEq] at hok
      obtain ⟨h1, h2, h3⟩ := hok
      rw [← h1, ← h2, ← h3]
      simp only [List.length_map]
      exact filter_partition_length _ _ _
    · rw [get_file_lists, if_neg hde] at hok
      simp only [Except.ok.injEq, Prod.mk.injEq] at hok
      obtain ⟨h1, h2, h3⟩ := hok
      rw [← h1, ← h2, ← h3]
      simp

theorem C1_witness :
    get_file_lists fsSample treeSample argsSample = .ok
      ( (reconInput treeSample argsSample).filter (fun x => !fsSample.isfile x.dest)
      , ((reconInput treeSample argsSample).filter (fun x => fsSample.isfile x.dest &&
          !decide (some ((fsSample.getsize x.dest : Int)) = x.contentlength))).map
            (probeUpd fsSample)
      , ((reconInput treeSample argsSample).filter (fun x => fsSample.isfile x.dest &&
          decide (some ((fsSample.getsize x.dest : Int)) = x.contentlength))).map
            (probeUpd fsSample) ) :=
  (C1_reconcile fsSample treeSample argsSample (by decide)).2.1 (by decide)

/-- C2: For every well-formed remote tree (directory entries, and only
they, end in the separator), the walker returns exactly the non-directory
entries of the whole subtree, at any nesting depth, and no returned item's
path ends in the separator. -/
theorem C2_walker (f : Forest) (hwf : forest_wf f = true) :
    walk_dir f = (forest_items f).filter (fun it => !endsWithSlash it.path) ∧
    ∀ it ∈ walk_dir f, endsWithSlash it.path = false :=
  ⟨walk_dir_filter f hwf, walk_dir_no_slash f⟩

theorem C2_witness :
    forest_wf treeSample = true ∧
    walk_dir treeSample
      = (forest_items treeSample).filter (fun it => !endsWithSlash it.path) :=
  ⟨by decide, (C2_walker treeSample (by decide)).1⟩

/-- C3: A download fails with a transfer error naming the URL exactly when
the response advertised a non-zero content length differing from the number
of bytes written; an absent or zero advertised length never raises an
integrity error, whatever was written. -/
theorem C3_integrity (fs : FS) (resp : DLResponse) (host ps po : String) :
    ((download_file fs resp host ps po).2
        = .error (.transferError (webdavUrl host ps))
      ↔ ∃ S, resp.contentLength = some S ∧ S ≠ 0 ∧ bytesWritten resp ≠ S) ∧
    ((resp.contentLength = none ∨ resp.contentLength = some 0) →
      (download_file fs resp host ps po).2 = .ok (bytesWritten resp)) := by
  cases hcl : resp.contentLength with
  | none => simp [download_file, hcl]
  | some S =>
    by_cases hS : S = 0
    · subst hS
      simp [download_file, hcl]
    · by_cases hb : bytesWritten resp = S
      · simp [download_file, hcl, hS, hb]
      · simp [download_file, hcl, hS, hb]

/-- Sample GET response with no advertised content length. -/
def respNone : DLResponse := { contentLength := none, chunks := [[1, 2], [3]] }

theorem C3_witness :
    (download_file fsSample respNone "h" "/a.txt" "out/a.txt").2
      = .ok (bytesWritten respNone) :=
  (C3_integrity fsSample respNone "h" "/a.txt" "out/a.txt").2 (Or.inl rfl)

/-- C4: A directory listing fails with a protocol error carrying the
request URL, the HTTP status and the response body exactly when the status
is not 207; at status 207 no protocol error is possible (and on failure no
items are returned, the result being an error). -/
theorem C4_protocol (resp : PResponse) (host path : String) :
    (resp.status_code ≠ CODE_SUCCESS →
      list_dir resp host path
        = .error (.protocolError (webdavUrl host path) resp.status_code resp.body)) ∧
    (resp.status_code = CODE_SUCCESS →
      ∀ u st b, list_dir resp host path ≠ .error (.protocolError u st b)) := by
  constructor
  · intro hne
    simp [list_dir, hne]
  · intro heq u st b
    unfold list_dir
    rw [heq]
    rw [if_neg (by simp)]
    cases hp : parse_propfind_response resp.body with
    | error err =>
      dsimp only
      intro hc
      simp only [Except.error.injEq] at hc
      subst hc
      exact parse_no_protocol resp.body u st b hp
    | ok its => simp

theorem C4_witness :
    list_dir ⟨404, docSample⟩ "h" "/"
      = .error (.protocolError (webdavUrl "h" "/") 404 docSample) :=
  (C4_protocol ⟨404, docSample⟩ "h" "/").1 (by decide)

/-- C5 (counterexample): the claimed formula — percent-decode the remote
path, strip its leading separator, join under the output root, with the
output root left undecoded — disagrees with the code at output root `%41`
and remote path `/b.txt`: the code produces `A/b.txt` (it decodes the
joined path, output root included), the claimed formula `%41/b.txt`. -/
theorem C5_counterexample :
    ¬ destOf "%41" "/b.txt" = destOf_specwords "%41" "/b.txt" := by decide

/-- C5 (amended): for every file record reaching reconciliation, the
destination path equals percent-decoding applied to the join of the output
root with the remote path minus its first character — decoding happens
after joining, so it applies to the output root as well. -/
theorem C5_dest (tree : Forest) (args : Args) (x : Item)
    (hx : x ∈ reconInput tree args) :
    x.dest = unquote (ospath_join args.output (strDrop x.path 1)) := by
  have hx2 : x ∈ dest_files tree args := by
    unfold reconInput at hx
    by_cases hg : args.glob ≠ []
    · rw [if_pos hg] at hx
      exact (List.mem_filter.mp hx).1
    · rw [if_neg hg] at hx
      exact hx
  obtain ⟨y, hy, hxy⟩ := List.mem_map.mp hx2
  subst hxy
  rfl

/-- Sample reconciled record for `/a.txt` under output root `out`. -/
def xSampleA : Item := { path := "/a.txt", contentlength := some 3, dest := "out/a.txt" }

theorem C5_witness :
    xSampleA.dest = unquote (ospath_join argsSample.output (strDrop xSampleA.path 1)) :=
  C5_dest treeSample argsSample xSampleA (by decide)

/-- C6: Every entry of a well-formed listing body yields one record: the
href becomes the path with the fixed prefix dropped, the three properties
are optional (an absent one leaves the field absent), textual fields pass
through unconverted, and a present all-digit content length parses to that
non-negative integer. -/
theorem C6_entry_fields (doc : List PropEntry) (items : List Item) (e : PropEntry)
    (hmem : e ∈ doc) (hok : parse_propfind_response doc = .ok items) :
    ∃ it ∈ items, ∃ hr, e.href = some hr ∧
      it.path = strDrop hr LEN_PATH_PREF ∧
      it.lastmodified = e.lastmodified ∧
      it.contenttype = e.contenttype ∧
      (e.contentlength = none → it.contentlength = none) ∧
      (∀ s, e.contentlength = some s → isDigits s.data = true →
        it.contentlength = some ((digitsToNat s.data : Int)) ∧
        0 ≤ ((digitsToNat s.data : Int))) := by
  obtain ⟨⟨i, h1⟩, hi⟩ := List.mem_iff_get.mp hmem
  obtain ⟨hlen, hpt⟩ := parse_ok_pointwise doc items hok
  have h2 : i < items.length := by rw [hlen]; exact h1
  have hpe := hpt i h1 h2
  rw [hi] at hpe
  obtain ⟨hr, hhref, hpath, hlm, hct, hclnone, hclsome⟩ := parse_entry_fields e _ hpe
  refine ⟨items.get ⟨i, h2⟩, List.get_mem _ _ _, hr, hhref, hpath, hlm, hct, hclnone, ?_⟩
  intro s hs hd
  obtain ⟨n, hpi, hcl⟩ := hclsome s hs
  rw [pyInt_digits s hd] at hpi
  simp only [Option.some.injEq] at hpi
  subst hpi
  exact ⟨hcl, Int.natCast_nonneg _⟩

/-- Sample file entry of `docSample`. -/
def entrySample : PropEntry :=
  { href := some "/public.php/webdav/a.txt", lastmodified := some "LM"
  , contentlength := some "10", contenttype := some "text/plain" }

theorem C6_witness :
    ∃ it ∈ itemsSample, ∃ hr, entrySample.href = some hr ∧
      it.path = strDrop hr LEN_PATH_PREF ∧
      it.lastmodified = entrySample.lastmodified ∧
      it.contenttype = entrySample.contenttype ∧
      (entrySample.contentlength = none → it.contentlength = none) ∧
      (∀ s, entrySample.contentlength = some s → isDigits s.data = true →
        it.contentlength = some ((digitsToNat s.data : Int)) ∧
        0 ≤ ((digitsToNat s.data : Int))) :=
  C6_entry_fields docSample itemsSample entrySample (by decide) (by rfl)

/-- C7: A successful parse of an N-entry body yields exactly N records in
document order — the i-th record comes from the i-th entry, the first (the
queried directory itself) included; the listing step, not the parser,
drops that first record. -/
theorem C7_parse_order (doc : List PropEntry) (items : List Item)
    (hok : parse_propfind_response doc = .ok items) :
    items.length = doc.length ∧
    (∀ i (h1 : i < doc.length) (h2 : i < items.length),
      parse_entry (doc.get ⟨i, h1⟩) = .ok (items.get ⟨i, h2⟩)) ∧
    (∀ host path, list_dir ⟨CODE_SUCCESS, doc⟩ host path = .ok (items.drop 1)) := by
  obtain ⟨hlen, hpt⟩ := parse_ok_pointwise doc items hok
  refine ⟨hlen, hpt, ?_⟩
  intro host path
  unfold list_dir
  dsimp only
  rw [if_neg (fun hh => hh rfl)]
  rw [hok]

theorem C7_witness :
    itemsSample.length = docSample.length ∧
    list_dir ⟨CODE_SUCCESS, docSample⟩ "h" "/" = .ok (itemsSample.drop 1) :=
  ⟨(C7_parse_order docSample itemsSample rfl).1,
   (C7_parse_order docSample itemsSample rfl).2.2 "h" "/"⟩

/-- C8: With at least one glob pattern supplied, exactly the files whose
destination path matches some pattern (patterns OR-combined by
`glob_filter`) survive into reconciliation, and every record in any of the
three output collections matches some pattern — a file matching none
appears in none of them. -/
theorem C8_glob (fs : FS) (tree : Forest) (args : Args) (hg : args.glob ≠ []) :
    reconInput tree args
      = (dest_files tree args).filter (fun x => glob_filter x.dest args.glob) ∧
    (∀ x ∈ reconInput tree args, glob_filter x.dest args.glob = true) ∧
    (∀ n m ex, get_file_lists fs tree args = .ok (n, m, ex) →
      ∀ x, (x ∈ n ∨ x ∈ m ∨ x ∈ ex) → glob_filter x.dest args.glob = true) := by
  have h1 : reconInput tree args
      = (dest_files tree args).filter (fun x => glob_filter x.dest args.glob) := by
    unfold reconInput
    rw [if_pos hg]
  have h2 : ∀ x ∈ reconInput tree args, glob_filter x.dest args.glob = true := by
    intro x hx
    rw [h1] at hx
    exact (List.mem_filter.mp hx).2
  refine ⟨h1, h2, ?_⟩
  intro n m ex hok x hx
  unfold get_file_lists at hok
  by_cases hde : check_dir_not_empty fs args.output
  · rw [if_pos hde] at hok
    obtain ⟨hn, hm, hex⟩ := check_files_mem fs (reconInput tree args) n m ex hok
    rcases hx with hx | hx | hx
    · exact h2 x (hn x hx)
    · obtain ⟨y, hy, hxy⟩ := hm x hx
      subst hxy
      exact h2 y hy
    · obtain ⟨y, hy, hxy⟩ := hex x hx
      subst hxy
      exact h2 y hy
  · rw [if_neg hde] at hok
    simp only [Except.ok.injEq, Prod.mk.injEq] at hok
    obtain ⟨e1, e2, e3⟩ := hok
    rcases hx with hx | hx | hx
    · rw [← e1] at hx
      exact h2 x hx
    · rw [← e2] at hx
      simp at hx
    · rw [← e3] at hx
      simp at hx

theorem C8_witness :
    reconInput treeSample argsGlob
      = (dest_files treeSample argsGlob).filter
          (fun x => glob_filter x.dest argsGlob.glob) :=
  (C8_glob fsSample treeSample argsGlob (by decide)).1

/-- C9: A transfer that completes without error for a response advertising
a non-zero size S leaves exactly S bytes at the destination, so the next
classification of that file against the updated snapshot puts it in the
Existing collection. -/
theorem C9_roundtrip (fs : FS) (resp : DLResponse) (host rp : String) (x : Item)
    (S n : Nat) (hadv : resp.contentLength = some S) (hS : S ≠ 0)
    (hok : (download_file fs resp host rp x.dest).2 = .ok n)
    (hcl : x.contentlength = some ((S : Int))) :
    bytesWritten resp = S ∧
    ((download_file fs resp host rp x.dest).1).isfile x.dest = true ∧
    ((download_file fs resp host rp x.dest).1).getsize x.dest = S ∧
    check_files ((download_file fs resp host rp x.dest).1) [x]
      = .ok ([], [], [{ x with filesize := some ((S : Int)) }]) := by
  have hbw : bytesWritten resp = S := by
    by_contra hne
    simp [download_file, hadv, hS, hne] at hok
  have hfs1 : (download_file fs resp host rp x.dest).1
      = fs.writeFile x.dest (bytesWritten resp) := rfl
  rw [hfs1, hbw]
  refine ⟨rfl, ?_, ?_, ?_⟩
  · simp [FS.writeFile]
  · simp [FS.writeFile]
  · simp [check_files, FS.writeFile, hcl, probeUpd]

/-- Sample GET response advertising 7 bytes and delivering 7 bytes. -/
def respSeven : DLResponse := { contentLength := some 7, chunks := [[1, 2, 3], [4, 5, 6, 7]] }

/-- Sample reconciled record for `/sub/b.txt` under output root `out`. -/
def xSampleB : Item :=
  { path := "/sub/b.txt", lastmodified := some "LM", contentlength := some 7
  , contenttype := some "text/plain", dest := "out/sub/b.txt" }

theorem C9_witness :
    bytesWritten respSeven = 7 ∧
    ((download_file fsSample respSeven "h" "/sub/b.txt" xSampleB.dest).1).isfile
        xSampleB.dest = true ∧
    ((download_file fsSample respSeven "h" "/sub/b.txt" xSampleB.dest).1).getsize
        xSampleB.dest = 7 ∧
    check_files ((download_file fsSample respSeven "h" "/sub/b.txt" xSampleB.dest).1)
        [xSampleB]
      = .ok ([], [], [{ xSampleB with filesize := some ((7 : Int)) }]) :=
  C9_roundtrip fsSample respSeven "h" "/sub/b.txt" xSampleB 7 7 rfl (by decide) rfl rfl

/-- C10: Classification of a record whose destination exists performs an
unguarded content-length lookup: a record lacking `contentlength` whose
destination probes as a regular file makes `check_files` fail with the
missing-key error instead of classifying, while every input whose records
all carry `contentlength` classifies successfully — `check_files` is total
exactly under that precondition. -/
theorem C10_unguarded :
    (∀ (fs : FS) (x : Item), x.contentlength = none → fs.isfile x.dest = true →
      check_files fs [x] = .error (.keyError "contentlength")) ∧
    (∀ (fs : FS) (files : List Item), (∀ x ∈ files, x.contentlength ≠ none) →
      ∃ r, check_files fs files = .ok r) := by
  constructor
  · intro fs x hcl hf
    simp [check_files, hf, hcl]
  · intro fs files h
    exact ⟨_, check_files_eq fs files h⟩

theorem C10_witness :
    check_files fsAllFiles [{ path := "/sub/" }]
      = .error (.keyError "contentlength") :=
  C10_unguarded.1 fsAllFiles { path := "/sub/" } rfl rfl

end NCDown
